import Mathlib

/-!
Shallow embedding of the `memory_cache` Go package (memory_cache.go): a
sharded in-process TTL cache.  Time instants and durations are modelled as
`Int` nanoseconds (`time.Time.UnixNano` / `time.Duration`); the wall clock is
passed explicitly as a `now` argument to each operation that reads it.  Go
maps are modelled as association lists with lookup / overwrite-insert / erase
operations.  Keys are modelled at character granularity.
-/

namespace MemoryCache

/-- Values stored in the cache (the Go `interface{}` payload): enough
constructors to distinguish string-typed values from others, as
`CacheGroup.GetString` does with a type assertion. -/
inductive Value where
  | str : String → Value
  | int : Int → Value
  | null : Value
deriving DecidableEq, Repr

/-- Constant `defultInterval = time.Second * 1` in nanoseconds. -/
def defultInterval : Int := 1000000000

/-- Constant `defultExpiration = time.Duration(0)` (never expires). -/
def defultExpiration : Int := 0

/-- Constant `defultKeyLen int8 = 3`, the shard key prefix length. -/
def defultKeyLen : Nat := 3

/-- The Go `item` struct: a stored value plus an `int64` expiration
(`0` meaning no expiration). -/
structure Item where
  object : Value
  expiration : Int
deriving DecidableEq, Repr

/-- Lookup in an association-list model of a Go `map[string]α`. -/
def mapLookup {α : Type} : List (String × α) → String → Option α
  | [], _ => none
  | p :: rest, k => if p.1 = k then some p.2 else mapLookup rest k

/-- Erase a key from the map model (`delete(m, k)`). -/
def mapErase {α : Type} (m : List (String × α)) (k : String) : List (String × α) :=
  m.filter (fun p => p.1 ≠ k)

/-- Overwriting insert into the map model (`m[k] = v`). -/
def mapInsert {α : Type} (m : List (String × α)) (k : String) (v : α) : List (String × α) :=
  (k, v) :: mapErase m k

/-- The Go `Cache` struct (one shard): its entry map, the janitor interval it
was constructed with, and its own (never read) `expiration` field.  The
`sync.RWMutex` and the janitor goroutine handle carry no data. -/
structure Cache where
  items : List (String × Item)
  interval : Int
  expiration : Int
deriving DecidableEq, Repr

/-- Interval selection in `newJanitor`: a non-positive duration falls back to
`defultInterval`. -/
def newJanitorInterval (d : Int) : Int :=
  if d ≤ 0 then defultInterval else d

/-- The Go `newCache(expiration, interval)` constructor, with the current
time passed explicitly: empty item map, janitor with the selected interval,
and `c.expiration = 0` when `expiration <= 0`, else `now + expiration`. -/
def newCache (expiration interval now : Int) : Cache :=
  { items := []
    interval := newJanitorInterval interval
    expiration := if expiration ≤ 0 then 0 else now + expiration }

/-- The Go `Cache.getValue`: look the key up under the read lock; a present
entry is hidden when its expiration is set (`> 0`) and `now` is strictly past
it.  Returns the `(interface{}, bool)` pair. -/
def Cache.getValue (c : Cache) (key : String) (now : Int) : Option Value × Bool :=
  match mapLookup c.items key with
  | some v =>
    if 0 < v.expiration ∧ v.expiration < now then (none, false)
    else (some v.object, true)
  | none => (none, false)

/-- The Go `Cache.getValue` with the shard state threaded through
explicitly: the source acquires only the read lock and performs no write to
the item map on any branch, so every branch returns the input shard
unchanged. -/
def Cache.getValueSt (c : Cache) (key : String) (now : Int) :
    (Option Value × Bool) × Cache :=
  match mapLookup c.items key with
  | some v =>
    if 0 < v.expiration ∧ v.expiration < now then ((none, false), c)
    else ((some v.object, true), c)
  | none => ((none, false), c)

/-- The Go `Cache.setValue`: store `item{object: value}` with
`expiration = now + ttl` when the ttl is positive, `0` otherwise, overwriting
any previous entry for the key. -/
def Cache.setValue (c : Cache) (key : String) (value : Value) (expiration now : Int) : Cache :=
  { c with
    items := mapInsert c.items key
      { object := value
        expiration := if 0 < expiration then now + expiration else 0 } }

/-- One pass of the janitor's inner loop in `janitor.run`, with the
timestamp it compares against passed explicitly: delete every entry whose
expiration is set (`> 0`) and strictly earlier than that timestamp. -/
def sweep (items : List (String × Item)) (now : Int) : List (String × Item) :=
  items.filter (fun p => ¬ (0 < p.2.expiration ∧ p.2.expiration < now))

/-- Timestamp used by the sweep performed at the i-th ticker tick (1-based)
of `janitor.run`.  In the source, `now := time.Now().UnixNano()` is executed
at the top of the loop, BEFORE the `select` blocks on the ticker channel, so
the sweep at a tick compares against a timestamp captured when the loop
iteration began: the goroutine start time for the first tick, and (modelling
sweeps as instantaneous) the previous tick time afterwards. -/
def janitorCaptureTime (start interval : Int) (i : Nat) : Int :=
  if i ≤ 1 then start else start + ((i : Int) - 1) * interval

/-- Wall-clock time of the i-th ticker tick (1-based): the `time.Ticker`
created at `start` with period `interval` fires at `start + i * interval`. -/
def janitorTickTime (start interval : Int) (i : Nat) : Int :=
  start + (i : Int) * interval

/-- The shard map state after the sweep performed at the i-th tick of
`janitor.run`, acting on the given item map: the inner deletion loop runs
with the stale timestamp captured before the tick. -/
def janitorSweepAtTick (start interval : Int) (i : Nat)
    (items : List (String × Item)) : List (String × Item) :=
  sweep items (janitorCaptureTime start interval i)

/-- The Go `CacheGroup` struct: the shard directory, the (never read)
group `expiration` field, and the key prefix length. -/
structure CacheGroup where
  caches : List (String × Cache)
  expiration : Int
  keyLen : Nat
deriving DecidableEq, Repr

/-- The Go `NewCacheGroup(expiration)` constructor with the current time
explicit: empty directory, `expiration = now + expiration`, default key
length. -/
def NewCacheGroup (expiration now : Int) : CacheGroup :=
  { caches := []
    expiration := now + expiration
    keyLen := defultKeyLen }

/-- The Go `CacheGroup.getSplitKey`: the whole key when its length is at
most `keyLen`, otherwise its first `keyLen` characters. -/
def CacheGroup.getSplitKey (g : CacheGroup) (key : String) : String :=
  if key.length ≤ g.keyLen then key else key.take g.keyLen

/-- The Go `CacheGroup.addCache`: no-op when a shard already exists for the
key's split key, otherwise install `newCache(expiration, interval)`. -/
def CacheGroup.addCache (g : CacheGroup) (key : String)
    (expiration interval now : Int) : CacheGroup :=
  let k := g.getSplitKey key
  match mapLookup g.caches k with
  | some _ => g
  | none => { g with caches := mapInsert g.caches k (newCache expiration interval now) }

/-- The Go `CacheGroup.addDefultCache`: return the existing shard for the
split key, or install and return a fresh `newCache(defultExpiration,
defultInterval)`. -/
def CacheGroup.addDefultCache (g : CacheGroup) (key : String) (now : Int) :
    Cache × CacheGroup :=
  let k := g.getSplitKey key
  match mapLookup g.caches k with
  | some v => (v, g)
  | none =>
    let c := newCache defultExpiration defultInterval now
    (c, { g with caches := mapInsert g.caches k c })

/-- The Go `CacheGroup.getCache`: directory lookup at the split key,
returning the `( *Cache, bool)` pair as an `Option`. -/
def CacheGroup.getCache (g : CacheGroup) (key : String) : Option Cache :=
  mapLookup g.caches (g.getSplitKey key)

/-- The Go `CacheGroup.GetValue`: route to the owning shard when one exists,
else `(nil, false)`. -/
def CacheGroup.GetValue (g : CacheGroup) (key : String) (now : Int) : Option Value × Bool :=
  match g.getCache key with
  | some c => c.getValue key now
  | none => (none, false)

/-- The Go `CacheGroup.GetValue` with the group state threaded through: the
directory lookup takes only the read lock, and the delegated
`Cache.getValue` leaves its shard unchanged (`Cache.getValueSt`), so both
branches return the input group unchanged. -/
def CacheGroup.GetValueSt (g : CacheGroup) (key : String) (now : Int) :
    (Option Value × Bool) × CacheGroup :=
  match g.getCache key with
  | some c => ((c.getValueSt key now).1, g)
  | none => ((none, false), g)

/-- The Go `CacheGroup.GetString`: typed wrapper over `GetValue`, with the
source's two error strings. -/
def CacheGroup.GetString (g : CacheGroup) (key : String) (now : Int) :
    Except String String :=
  match g.GetValue key now with
  | (some (Value.str sv), true) => Except.ok sv
  | (_, true) => Except.error "value not is string"
  | (_, false) => Except.error "key not found"

/-- The Go `CacheGroup.SetValue`: fetch the shard (creating a default one
via `addDefultCache` when absent), then `c.setValue` on it.  The final
`mapInsert` models the in-place mutation of the shard that the directory
stores under the split key. -/
def CacheGroup.SetValue (g : CacheGroup) (key : String) (value : Value)
    (expiration now : Int) : CacheGroup :=
  let p :=
    match g.getCache key with
    | some c => (c, g)
    | none => g.addDefultCache key now
  { p.2 with
    caches := mapInsert p.2.caches (g.getSplitKey key)
      (p.1.setValue key value expiration now) }

/-- The Go `CacheGroup.deleteCache`: error `"key not exist"` and an
unchanged directory when no shard maps to the split key, otherwise delete
the shard and return a nil error.  The first component is the returned
`error` (`none` = nil). -/
def CacheGroup.deleteCache (g : CacheGroup) (key : String) :
    Option String × CacheGroup :=
  let k := g.getSplitKey key
  match mapLookup g.caches k with
  | none => (some "key not exist", g)
  | some _ => (none, { g with caches := mapErase g.caches k })

/-! Lemmas about the association-list map model. -/

theorem mapLookup_insert_self {α : Type} (m : List (String × α)) (k : String) (v : α) :
    mapLookup (mapInsert m k v) k = some v := by
  simp [mapInsert, mapLookup]

theorem mapErase_cons {α : Type} (p : String × α) (rest : List (String × α))
    (k : String) :
    mapErase (p :: rest) k =
      if p.1 = k then mapErase rest k else p :: mapErase rest k := by
  by_cases h : p.1 = k <;> simp [mapErase, List.filter_cons, h]

theorem mapLookup_erase_self {α : Type} (m : List (String × α)) (k : String) :
    mapLookup (mapErase m k) k = none := by
  induction m with
  | nil => rfl
  | cons p rest ih =>
    rw [mapErase_cons]
    by_cases h : p.1 = k
    · rw [if_pos h]
      exact ih
    · rw [if_neg h]
      simp only [mapLookup, if_neg h]
      exact ih

theorem mapLookup_erase_ne {α : Type} (m : List (String × α)) (k k2 : String)
    (h : k2 ≠ k) : mapLookup (mapErase m k) k2 = mapLookup m k2 := by
  induction m with
  | nil => rfl
  | cons p rest ih =>
    rw [mapErase_cons]
    by_cases hp : p.1 = k
    · have hp2 : p.1 ≠ k2 := by rw [hp]; exact fun he => h he.symm
      rw [if_pos hp]
      simp only [mapLookup, if_neg hp2]
      exact ih
    · rw [if_neg hp]
      simp only [mapLookup]
      by_cases hq : p.1 = k2
      · rw [if_pos hq, if_pos hq]
      · rw [if_neg hq, if_neg hq]
        exact ih

theorem mapLookup_mem {α : Type} (m : List (String × α)) (k : String) (v : α)
    (h : mapLookup m k = some v) : (k, v) ∈ m := by
  induction m with
  | nil => simp [mapLookup] at h
  | cons p rest ih =>
    simp only [mapLookup] at h
    by_cases hp : p.1 = k
    · rw [if_pos hp] at h
      injection h with h2
      have hpk : p = (k, v) := by
        cases p
        simp only at hp h2
        rw [hp, h2]
      rw [hpk]
      exact List.mem_cons_self _ _
    · rw [if_neg hp] at h
      exact List.mem_cons_of_mem _ (ih h)

theorem mem_sweep_iff (items : List (String × Item)) (now : Int) (k : String)
    (it : Item) :
    (k, it) ∈ sweep items now ↔
      (k, it) ∈ items ∧ ¬ (0 < it.expiration ∧ it.expiration < now) := by
  simp only [sweep, List.mem_filter, decide_not, Bool.not_eq_eq_eq_not,
    Bool.not_true, decide_eq_false_iff_not]

/-- C1: for every key k, value v, and ttl > 0 (at a non-negative set time,
as `time.Now().UnixNano()` always is), `setValue k v ttl` followed by
`getValue k` at a time not past `expiresAt = t0 + ttl` returns `(v, true)`;
at a time strictly past `expiresAt` it returns `(nil, false)`; and
`getValue` on a key absent from the shard's map returns `(nil, false)`. -/
theorem C1_ttl_correctness (c : Cache) (k kabs : String) (v : Value)
    (ttl t0 t : Int) (httl : 0 < ttl) (ht0 : 0 ≤ t0) :
    (t ≤ t0 + ttl → (c.setValue k v ttl t0).getValue k t = (some v, true)) ∧
    (t0 + ttl < t → (c.setValue k v ttl t0).getValue k t = (none, false)) ∧
    (mapLookup c.items kabs = none → c.getValue kabs t = (none, false)) := by
  have hexp : (if 0 < ttl then t0 + ttl else 0) = t0 + ttl := if_pos httl
  refine ⟨fun ht => ?_, fun ht => ?_, fun habs => ?_⟩
  · simp only [Cache.setValue, Cache.getValue, mapLookup_insert_self, hexp]
    rw [if_neg (by omega : ¬ (0 < t0 + ttl ∧ t0 + ttl < t))]
  · simp only [Cache.setValue, Cache.getValue, mapLookup_insert_self, hexp]
    rw [if_pos (⟨by omega, ht⟩ : 0 < t0 + ttl ∧ t0 + ttl < t)]
  · simp [Cache.getValue, habs]

/-- Witness for C1 at a concrete shard, key, value and times. -/
theorem C1_ttl_correctness_witness :
    (0 : Int) < 5 ∧ (0 : Int) ≤ 100 ∧
    (((104 : Int) ≤ 100 + 5 →
        (Cache.setValue ⟨[], 1000000000, 0⟩ "ab" (Value.str "x") 5 100).getValue "ab" 104 =
          (some (Value.str "x"), true)) ∧
      (100 + 5 < (104 : Int) →
        (Cache.setValue ⟨[], 1000000000, 0⟩ "ab" (Value.str "x") 5 100).getValue "ab" 104 =
          (none, false)) ∧
      (mapLookup (⟨[], 1000000000, 0⟩ : Cache).items "zz" = none →
        (⟨[], 1000000000, 0⟩ : Cache).getValue "zz" 104 = (none, false))) :=
  ⟨by decide, by decide,
    C1_ttl_correctness ⟨[], 1000000000, 0⟩ "ab" "zz" (Value.str "x") 5 100 104
      (by decide) (by decide)⟩

/-- C3: an entry stored with a non-positive ttl has expiration `0`: at every
later time, `getValue` still returns `(v, true)`, and a sweep pass run with
any timestamp keeps the entry in the map. -/
theorem C3_no_expiration_persists (c : Cache) (k : String) (v : Value)
    (ttl t0 : Int) (httl : ttl ≤ 0) :
    ∀ t : Int,
      (c.setValue k v ttl t0).getValue k t = (some v, true) ∧
      mapLookup (sweep (c.setValue k v ttl t0).items t) k =
        some { object := v, expiration := 0 } := by
  intro t
  have hexp : (if 0 < ttl then t0 + ttl else 0) = 0 := if_neg (by omega)
  constructor
  · simp only [Cache.setValue, Cache.getValue, mapLookup_insert_self, hexp]
    rw [if_neg (by omega : ¬ ((0 : Int) < 0 ∧ (0 : Int) < t))]
  · simp only [Cache.setValue, mapInsert, hexp]
    simp [sweep, List.filter_cons, mapLookup]

/-- Witness for C3 at a concrete shard, key, value, zero ttl and times. -/
theorem C3_no_expiration_persists_witness :
    (0 : Int) ≤ 0 ∧
    ((Cache.setValue ⟨[], 1000000000, 0⟩ "ab" (Value.int 7) 0 100).getValue "ab" 999999 =
        (some (Value.int 7), true) ∧
      mapLookup (sweep (Cache.setValue ⟨[], 1000000000, 0⟩ "ab" (Value.int 7) 0 100).items 999999) "ab" =
        some { object := Value.int 7, expiration := 0 }) :=
  ⟨by decide,
    C3_no_expiration_persists ⟨[], 1000000000, 0⟩ "ab" (Value.int 7) 0 100 (by decide) 999999⟩

/-- C4: the read path never mutates the shard: `getValueSt` returns the
input shard state on every branch, and in particular when the looked-up
entry's expiration is set and in the past the result is `(nil, false)` while
the expired entry is still present in the resulting shard's map. -/
theorem C4_get_leaves_map_unchanged (c : Cache) (k : String) (now : Int) :
    (c.getValueSt k now).2 = c ∧
    (∀ v : Item, mapLookup c.items k = some v →
      0 < v.expiration ∧ v.expiration < now →
      (c.getValueSt k now).1 = (none, false) ∧
      mapLookup (c.getValueSt k now).2.items k = some v) := by
  constructor
  · rcases h : mapLookup c.items k with _ | v
    · simp [Cache.getValueSt, h]
    · simp only [Cache.getValueSt, h]
      split <;> rfl
  · intro v hv hexp
    simp [Cache.getValueSt, hv, if_pos hexp]

/-- C10: for an entry with a set expiration, at the exact instant `now`
equals the expiration the entry is still visible to `getValue` and a sweep
pass run with that timestamp keeps it; visibility is lost, and the sweep
removes it, exactly when the timestamp is strictly greater than the
expiration. -/
theorem C10_expiry_boundary_strict (c : Cache) (k : String) (v : Item)
    (now : Int) (hv : mapLookup c.items k = some v) (hexp : 0 < v.expiration) :
    c.getValue k v.expiration = (some v.object, true) ∧
    (k, v) ∈ sweep c.items v.expiration ∧
    (c.getValue k now = (none, false) ↔ v.expiration < now) ∧
    ((k, v) ∉ sweep c.items now ↔ v.expiration < now) := by
  have hmem : (k, v) ∈ c.items := mapLookup_mem _ _ _ hv
  refine ⟨?_, ?_, ?_, ?_⟩
  · simp only [Cache.getValue, hv]
    rw [if_neg (by omega : ¬ (0 < v.expiration ∧ v.expiration < v.expiration))]
  · rw [mem_sweep_iff]
    exact ⟨hmem, by omega⟩
  · simp only [Cache.getValue, hv]
    constructor
    · intro h
      by_cases hlt : v.expiration < now
      · exact hlt
      · rw [if_neg (by omega : ¬ (0 < v.expiration ∧ v.expiration < now))] at h
        simp at h
    · intro hlt
      rw [if_pos ⟨hexp, hlt⟩]
  · rw [mem_sweep_iff]
    constructor
    · intro h
      by_cases hlt : v.expiration < now
      · exact hlt
      · exact absurd ⟨hmem, by omega⟩ h
    · intro hlt h2
      exact h2.2 ⟨hexp, hlt⟩

/-- Witness for C10 at a concrete shard holding one entry expiring at 50,
probed at time 60. -/
theorem C10_expiry_boundary_strict_witness :
    mapLookup (⟨[("ab", ⟨Value.int 3, 50⟩)], 1000000000, 0⟩ : Cache).items "ab" =
      some ⟨Value.int 3, 50⟩ ∧
    (0 : Int) < (⟨Value.int 3, 50⟩ : Item).expiration ∧
    ((⟨[("ab", ⟨Value.int 3, 50⟩)], 1000000000, 0⟩ : Cache).getValue "ab"
        (⟨Value.int 3, 50⟩ : Item).expiration = (some (Value.int 3), true) ∧
      ("ab", (⟨Value.int 3, 50⟩ : Item)) ∈
        sweep (⟨[("ab", ⟨Value.int 3, 50⟩)], 1000000000, 0⟩ : Cache).items
          (⟨Value.int 3, 50⟩ : Item).expiration ∧
      ((⟨[("ab", ⟨Value.int 3, 50⟩)], 1000000000, 0⟩ : Cache).getValue "ab" 60 = (none, false) ↔
        (⟨Value.int 3, 50⟩ : Item).expiration < 60) ∧
      (("ab", (⟨Value.int 3, 50⟩ : Item)) ∉
          sweep (⟨[("ab", ⟨Value.int 3, 50⟩)], 1000000000, 0⟩ : Cache).items 60 ↔
        (⟨Value.int 3, 50⟩ : Item).expiration < 60)) :=
  ⟨by decide, by decide,
    C10_expiry_boundary_strict ⟨[("ab", ⟨Value.int 3, 50⟩)], 1000000000, 0⟩ "ab"
      ⟨Value.int 3, 50⟩ 60 (by decide) (by decide)⟩

/-- Record updates that only touch the directory do not change the split
key computation. -/
theorem getSplitKey_caches_update (g : CacheGroup) (m : List (String × Cache))
    (k : String) :
    CacheGroup.getSplitKey { g with caches := m } k = g.getSplitKey k := rfl

/-- C2 (counterexample): one shard entry with expiration 5, janitor started
at time 0 with interval 10.  At the first tick the sweep runs at time
`janitorTickTime 0 10 1 = 10`, the entry's expiration is set and earlier
than that time, yet the sweep removes nothing: `janitor.run` captured its
timestamp (0) before blocking on the ticker, and `5 < 0` fails. -/
theorem C2_stale_now_counterexample :
    (0 : Int) < 5 ∧ (5 : Int) < janitorTickTime 0 10 1 ∧
    janitorSweepAtTick 0 10 1 [("ab", ⟨Value.int 1, 5⟩)] =
      [("ab", ⟨Value.int 1, 5⟩)] := by
  decide

/-- C2 (amended): the sweep performed at the i-th tick removes exactly the
entries whose expiration is set and strictly earlier than the timestamp
captured when that loop iteration began — the janitor start time for the
first tick and the previous tick's time afterwards — not the tick time
itself; hence physical removal is only guaranteed within two sweep
intervals of expiry. -/
theorem C2_sweep_removes_expired_before_capture (start interval : Int)
    (i : Nat) (items : List (String × Item)) (k : String) (it : Item) :
    ((k, it) ∈ janitorSweepAtTick start interval i items ↔
      (k, it) ∈ items ∧
        ¬ (0 < it.expiration ∧
            it.expiration < janitorCaptureTime start interval i)) ∧
    (2 ≤ i →
      janitorCaptureTime start interval i =
        janitorTickTime start interval (i - 1)) := by
  constructor
  · exact mem_sweep_iff items (janitorCaptureTime start interval i) k it
  · intro hi
    unfold janitorCaptureTime janitorTickTime
    rw [if_neg (by omega)]
    have hcast : ((i - 1 : Nat) : Int) = (i : Int) - 1 := by omega
    rw [hcast]

/-- C5: the shard identifier is the whole key when the key has at most
`keyLen` characters and the first `keyLen` characters otherwise; two keys
with the same identifier are routed to the same shard, and after a
successful shard deletion through either key, `GetValue` on both returns
`(nil, false)`. -/
theorem C5_prefix_colocation (g : CacheGroup) (k1 k2 : String) (t : Int)
    (hpre : g.getSplitKey k1 = g.getSplitKey k2) :
    g.getSplitKey k1 =
      (if k1.length ≤ g.keyLen then k1 else k1.take g.keyLen) ∧
    g.getCache k1 = g.getCache k2 ∧
    ((g.deleteCache k1).1 = none →
      (g.deleteCache k1).2.GetValue k1 t = (none, false) ∧
      (g.deleteCache k1).2.GetValue k2 t = (none, false)) := by
  refine ⟨rfl, ?_, ?_⟩
  · unfold CacheGroup.getCache
    rw [hpre]
  · intro hdel
    rcases h : mapLookup g.caches (g.getSplitKey k1) with _ | c
    · simp [CacheGroup.deleteCache, h] at hdel
    · have hres : (g.deleteCache k1).2 =
          { g with caches := mapErase g.caches (g.getSplitKey k1) } := by
        simp [CacheGroup.deleteCache, h]
      rw [hres]
      constructor
      · simp [CacheGroup.GetValue, CacheGroup.getCache, getSplitKey_caches_update,
          mapLookup_erase_self]
      · simp [CacheGroup.GetValue, CacheGroup.getCache, getSplitKey_caches_update,
          ← hpre, mapLookup_erase_self]

/-- Witness for C5 with prefix length 3 and the keys "abcX", "abcY". -/
theorem C5_prefix_colocation_witness :
    (NewCacheGroup 0 0).getSplitKey "abcX" = (NewCacheGroup 0 0).getSplitKey "abcY" ∧
    ((NewCacheGroup 0 0).getSplitKey "abcX" =
        (if "abcX".length ≤ (NewCacheGroup 0 0).keyLen then "abcX"
          else "abcX".take (NewCacheGroup 0 0).keyLen) ∧
      (NewCacheGroup 0 0).getCache "abcX" = (NewCacheGroup 0 0).getCache "abcY" ∧
      (((NewCacheGroup 0 0).deleteCache "abcX").1 = none →
        ((NewCacheGroup 0 0).deleteCache "abcX").2.GetValue "abcX" 7 = (none, false) ∧
        ((NewCacheGroup 0 0).deleteCache "abcX").2.GetValue "abcY" 7 = (none, false))) :=
  ⟨by decide, C5_prefix_colocation (NewCacheGroup 0 0) "abcX" "abcY" 7 (by decide)⟩

/-- C7: deleting through a key whose prefix has a shard removes exactly that
shard from the directory and returns a nil error — a subsequent lookup for
the same prefix finds no shard; deleting through a key whose prefix has no
shard returns the error `"key not exist"` and leaves the group unchanged. -/
theorem C7_delete_shard (g : CacheGroup) (k : String) :
    (∀ c : Cache, g.getCache k = some c →
      g.deleteCache k =
        (none, { g with caches := mapErase g.caches (g.getSplitKey k) }) ∧
      (g.deleteCache k).2.getCache k = none) ∧
    (g.getCache k = none → g.deleteCache k = (some "key not exist", g)) := by
  constructor
  · intro c hc
    rw [CacheGroup.getCache] at hc
    have hres : g.deleteCache k =
        (none, { g with caches := mapErase g.caches (g.getSplitKey k) }) := by
      simp [CacheGroup.deleteCache, hc]
    refine ⟨hres, ?_⟩
    rw [hres]
    simp [CacheGroup.getCache, getSplitKey_caches_update, mapLookup_erase_self]
  · intro hc
    rw [CacheGroup.getCache] at hc
    simp [CacheGroup.deleteCache, hc]

/-- The group `GetValue` can never answer `(nil, true)`: a found answer
always carries the stored value. -/
theorem GetValue_ne_none_true (g : CacheGroup) (k : String) (t : Int) :
    g.GetValue k t ≠ (none, true) := by
  unfold CacheGroup.GetValue Cache.getValue
  split
  · split
    · split <;> simp
    · simp
  · simp

/-- C6: `GetString` answers `ok s` exactly when `GetValue` finds the
string value `s`; it answers the error `"key not found"` exactly when
`GetValue` reports not-found; and it answers the error
`"value not is string"` exactly when `GetValue` finds a value that is not
string-typed. -/
theorem C6_getstring_errors (g : CacheGroup) (k : String) (t : Int) :
    (∀ s : String,
      g.GetString k t = Except.ok s ↔ g.GetValue k t = (some (Value.str s), true)) ∧
    (g.GetString k t = Except.error "key not found" ↔ (g.GetValue k t).2 = false) ∧
    (g.GetString k t = Except.error "value not is string" ↔
      ∃ v : Value, g.GetValue k t = (some v, true) ∧ ∀ s : String, v ≠ Value.str s) := by
  rcases hval : g.GetValue k t with ⟨ov, b⟩
  cases b
  · have hgs : g.GetString k t = Except.error "key not found" := by
      cases ov <;> simp [CacheGroup.GetString, hval]
    rw [hgs]
    refine ⟨fun s => ?_, ?_, ?_⟩
    · simp
    · simp
    · constructor
      · intro h
        simp at h
      · rintro ⟨v, hv, -⟩
        simp at hv
  · rcases ov with _ | v
    · exact absurd hval (GetValue_ne_none_true g k t)
    · rcases v with s0 | n | _
      · have hgs : g.GetString k t = Except.ok s0 := by
          simp [CacheGroup.GetString, hval]
        rw [hgs]
        refine ⟨fun s => ?_, ?_, ?_⟩
        · constructor
          · intro h
            injection h with h
            rw [h]
          · intro h
            simp at h
            rw [h]
        · simp
        · constructor
          · intro h
            simp at h
          · rintro ⟨v, hv, hall⟩
            simp at hv
            exact absurd hv.symm (hall s0)
      · have hgs : g.GetString k t = Except.error "value not is string" := by
          simp [CacheGroup.GetString, hval]
        rw [hgs]
        refine ⟨fun s => ?_, ?_, ?_⟩
        · constructor
          · intro h
            simp at h
          · intro h
            simp at h
        · constructor
          · intro h
            simp at h
          · intro h
            simp at h
        · constructor
          · intro _
            exact ⟨Value.int n, rfl, fun s hs => by simp at hs⟩
          · intro _
            rfl
      · have hgs : g.GetString k t = Except.error "value not is string" := by
          simp [CacheGroup.GetString, hval]
        rw [hgs]
        refine ⟨fun s => ?_, ?_, ?_⟩
        · constructor
          · intro h
            simp at h
          · intro h
            simp at h
        · constructor
          · intro h
            simp at h
          · intro h
            simp at h
        · constructor
          · intro _
            exact ⟨Value.null, rfl, fun s hs => by simp at hs⟩
          · intro _
            rfl

/-- C8: when no shard exists for a key's prefix, `GetValueSt` answers
`(nil, false)` and returns the group unchanged, while `SetValue` installs
a freshly constructed default shard — no expiration (`expiration = 0`) and
the default one-second sweep interval — and performs the write on it, so
the written entry is present afterwards. -/
theorem C8_miss_semantics (g : CacheGroup) (k : String) (v : Value)
    (ttl t : Int) (hmiss : g.getCache k = none) :
    g.GetValueSt k t = ((none, false), g) ∧
    (g.SetValue k v ttl t).getCache k =
      some ((newCache defultExpiration defultInterval t).setValue k v ttl t) ∧
    ((newCache defultExpiration defultInterval t).setValue k v ttl t).expiration = 0 ∧
    ((newCache defultExpiration defultInterval t).setValue k v ttl t).interval =
      1000000000 ∧
    mapLookup (((newCache defultExpiration defultInterval t).setValue k v ttl t).items) k =
      some { object := v, expiration := if 0 < ttl then t + ttl else 0 } := by
  rw [CacheGroup.getCache] at hmiss
  refine ⟨?_, ?_, ?_, ?_, ?_⟩
  · simp [CacheGroup.GetValueSt, CacheGroup.getCache, hmiss]
  · have hset : g.SetValue k v ttl t =
        { g with
          caches := mapInsert
            (mapInsert g.caches (g.getSplitKey k)
              (newCache defultExpiration defultInterval t))
            (g.getSplitKey k)
            ((newCache defultExpiration defultInterval t).setValue k v ttl t) } := by
      simp [CacheGroup.SetValue, CacheGroup.getCache, CacheGroup.addDefultCache, hmiss]
    rw [hset]
    simp [CacheGroup.getCache, getSplitKey_caches_update, mapLookup_insert_self]
  · rfl
  · rfl
  · rw [Cache.setValue]
    exact mapLookup_insert_self _ _ _

/-- Witness for C8 on the empty group with key "abcd". -/
theorem C8_miss_semantics_witness :
    (NewCacheGroup 0 0).getCache "abcd" = none ∧
    ((NewCacheGroup 0 0).GetValueSt "abcd" 100 = ((none, false), NewCacheGroup 0 0) ∧
      ((NewCacheGroup 0 0).SetValue "abcd" (Value.str "s") 0 100).getCache "abcd" =
        some ((newCache defultExpiration defultInterval 100).setValue "abcd"
          (Value.str "s") 0 100) ∧
      ((newCache defultExpiration defultInterval 100).setValue "abcd"
          (Value.str "s") 0 100).expiration = 0 ∧
      ((newCache defultExpiration defultInterval 100).setValue "abcd"
          (Value.str "s") 0 100).interval = 1000000000 ∧
      mapLookup (((newCache defultExpiration defultInterval 100).setValue "abcd"
          (Value.str "s") 0 100).items) "abcd" =
        some { object := Value.str "s", expiration := if (0 : Int) < 0 then 100 + 0 else 0 }) :=
  ⟨by decide,
    C8_miss_semantics (NewCacheGroup 0 0) "abcd" (Value.str "s") 0 100 (by decide)⟩

/-- A call against the group API, carrying the wall-clock time at which it
runs; `addShardOp` is the explicit shard creation `addCache`. -/
inductive Op where
  | getOp (key : String) (now : Int)
  | getStringOp (key : String) (now : Int)
  | setOp (key : String) (value : Value) (expiration now : Int)
  | deleteShardOp (key : String)
  | addShardOp (key : String) (expiration interval now : Int)
deriving DecidableEq, Repr

instance : DecidableEq (Except String String) := fun a b =>
  match a, b with
  | Except.ok x, Except.ok y =>
    if h : x = y then isTrue (congrArg Except.ok h)
    else isFalse fun he => h (Except.ok.inj he)
  | Except.ok _, Except.error _ => isFalse fun he => Except.noConfusion he
  | Except.error _, Except.ok _ => isFalse fun he => Except.noConfusion he
  | Except.error x, Except.error y =>
    if h : x = y then isTrue (congrArg Except.error h)
    else isFalse fun he => h (Except.error.inj he)

/-- The caller-visible result of one call. -/
inductive Output where
  | found : Option Value → Bool → Output
  | strResult : Except String String → Output
  | done : Output
  | delResult : Option String → Output
deriving DecidableEq, Repr

/-- Execute one call against the group. -/
def runOp (g : CacheGroup) : Op → Output × CacheGroup
  | Op.getOp k t => (Output.found (g.GetValue k t).1 (g.GetValue k t).2, g)
  | Op.getStringOp k t => (Output.strResult (g.GetString k t), g)
  | Op.setOp k v e t => (Output.done, g.SetValue k v e t)
  | Op.deleteShardOp k => (Output.delResult (g.deleteCache k).1, (g.deleteCache k).2)
  | Op.addShardOp k e i t => (Output.done, g.addCache k e i t)

/-- The sequence of caller-visible results of a call sequence. -/
def runOps (g : CacheGroup) : List Op → List Output
  | [] => []
  | op :: ops => (runOp g op).1 :: runOps (runOp g op).2 ops

/-- Zero out the expiration argument of explicit shard creation; every
other call carries no shard-expiration argument and is left unchanged. -/
def eraseShardTtl : Op → Op
  | Op.addShardOp k _ i t => Op.addShardOp k 0 i t
  | op => op

/-- Two shards that agree on everything any operation reads: the item map
and the janitor interval.  The `expiration` field is unconstrained. -/
def CacheSim (c1 c2 : Cache) : Prop :=
  c1.items = c2.items ∧ c1.interval = c2.interval

/-- Directory entries with equal keys and similar shards. -/
def EntrySim (p q : String × Cache) : Prop :=
  p.1 = q.1 ∧ CacheSim p.2 q.2

/-- Two groups that agree on everything any operation reads: the prefix
length and, entrywise, the shard directory up to `CacheSim`.  The group
`expiration` field is unconstrained. -/
def GroupSim (g1 g2 : CacheGroup) : Prop :=
  g1.keyLen = g2.keyLen ∧ List.Forall₂ EntrySim g1.caches g2.caches

theorem mapLookup_sim {m1 m2 : List (String × Cache)} (k : String)
    (h : List.Forall₂ EntrySim m1 m2) :
    (mapLookup m1 k = none ∧ mapLookup m2 k = none) ∨
    ∃ c1 c2, mapLookup m1 k = some c1 ∧ mapLookup m2 k = some c2 ∧
      CacheSim c1 c2 := by
  induction h with
  | nil => exact Or.inl ⟨rfl, rfl⟩
  | cons hpq hrest ih =>
    rename_i p q l1 l2
    by_cases hk : p.1 = k
    · refine Or.inr ⟨p.2, q.2, ?_, ?_, hpq.2⟩
      · simp [mapLookup, hk]
      · have hk2 : q.1 = k := hpq.1 ▸ hk
        simp [mapLookup, hk2]
    · have hk2 : ¬ q.1 = k := by rw [← hpq.1]; exact hk
      simp only [mapLookup, if_neg hk, if_neg hk2]
      exact ih

theorem mapErase_sim {m1 m2 : List (String × Cache)} (k : String)
    (h : List.Forall₂ EntrySim m1 m2) :
    List.Forall₂ EntrySim (mapErase m1 k) (mapErase m2 k) := by
  induction h with
  | nil => exact List.Forall₂.nil
  | cons hpq hrest ih =>
    rename_i p q l1 l2
    rw [mapErase_cons, mapErase_cons]
    by_cases hk : p.1 = k
    · rw [if_pos hk, if_pos (hpq.1 ▸ hk)]
      exact ih
    · have hk2 : ¬ q.1 = k := by rw [← hpq.1]; exact hk
      rw [if_neg hk, if_neg hk2]
      exact List.Forall₂.cons hpq ih

theorem mapInsert_sim {m1 m2 : List (String × Cache)} (k : String)
    {c1 c2 : Cache} (h : List.Forall₂ EntrySim m1 m2) (hc : CacheSim c1 c2) :
    List.Forall₂ EntrySim (mapInsert m1 k c1) (mapInsert m2 k c2) :=
  List.Forall₂.cons ⟨rfl, hc⟩ (mapErase_sim k h)

theorem getSplitKey_sim {g1 g2 : CacheGroup} (h : g1.keyLen = g2.keyLen)
    (k : String) : g1.getSplitKey k = g2.getSplitKey k := by
  unfold CacheGroup.getSplitKey
  rw [h]

theorem getValue_sim {c1 c2 : Cache} (h : CacheSim c1 c2) {k : String}
    {t : Int} : c1.getValue k t = c2.getValue k t := by
  unfold Cache.getValue
  rw [h.1]

theorem setValue_sim {c1 c2 : Cache} (h : CacheSim c1 c2) {k : String}
    {v : Value} {e t : Int} :
    CacheSim (c1.setValue k v e t) (c2.setValue k v e t) := by
  refine ⟨?_, h.2⟩
  simp only [Cache.setValue]
  rw [h.1]

theorem GetValue_sim {g1 g2 : CacheGroup} (h : GroupSim g1 g2) {k : String}
    {t : Int} : g1.GetValue k t = g2.GetValue k t := by
  unfold CacheGroup.GetValue CacheGroup.getCache
  rw [getSplitKey_sim h.1 k]
  rcases mapLookup_sim (g2.getSplitKey k) h.2 with ⟨h1, h2⟩ | ⟨c1, c2, h1, h2, hc⟩
  · rw [h1, h2]
  · rw [h1, h2]
    exact getValue_sim hc

theorem GetString_sim {g1 g2 : CacheGroup} (h : GroupSim g1 g2) {k : String}
    {t : Int} : g1.GetString k t = g2.GetString k t := by
  unfold CacheGroup.GetString
  rw [GetValue_sim h]

/-- Unfolding of `SetValue` when a shard exists for the key's prefix. -/
theorem SetValue_eq_hit (g : CacheGroup) {k : String} {c : Cache}
    (h : mapLookup g.caches (g.getSplitKey k) = some c) (v : Value)
    (e t : Int) :
    g.SetValue k v e t =
      { g with
        caches := mapInsert g.caches (g.getSplitKey k) (c.setValue k v e t) } := by
  simp [CacheGroup.SetValue, CacheGroup.getCache, h]

/-- Unfolding of `SetValue` when no shard exists for the key's prefix: a
default shard is created and the write is performed on it. -/
theorem SetValue_eq_miss (g : CacheGroup) {k : String}
    (h : mapLookup g.caches (g.getSplitKey k) = none) (v : Value)
    (e t : Int) :
    g.SetValue k v e t =
      { g with
        caches := mapInsert
          (mapInsert g.caches (g.getSplitKey k)
            (newCache defultExpiration defultInterval t))
          (g.getSplitKey k)
          ((newCache defultExpiration defultInterval t).setValue k v e t) } := by
  simp [CacheGroup.SetValue, CacheGroup.getCache, CacheGroup.addDefultCache, h]

theorem SetValue_sim {g1 g2 : CacheGroup} (h : GroupSim g1 g2) {k : String}
    {v : Value} {e t : Int} :
    GroupSim (g1.SetValue k v e t) (g2.SetValue k v e t) := by
  have hk : g1.getSplitKey k = g2.getSplitKey k := getSplitKey_sim h.1 k
  rcases mapLookup_sim (g1.getSplitKey k) h.2 with ⟨h1, h2⟩ | ⟨c1, c2, h1, h2, hc⟩
  · rw [hk] at h2
    rw [SetValue_eq_miss g1 h1 v e t, SetValue_eq_miss g2 h2 v e t]
    refine ⟨h.1, ?_⟩
    rw [← hk]
    exact mapInsert_sim _ (mapInsert_sim _ h.2 ⟨rfl, rfl⟩) (setValue_sim ⟨rfl, rfl⟩)
  · rw [hk] at h2
    rw [SetValue_eq_hit g1 h1 v e t, SetValue_eq_hit g2 h2 v e t]
    refine ⟨h.1, ?_⟩
    rw [← hk]
    exact mapInsert_sim _ h.2 (setValue_sim hc)

theorem deleteCache_sim {g1 g2 : CacheGroup} (h : GroupSim g1 g2)
    (k : String) :
    (g1.deleteCache k).1 = (g2.deleteCache k).1 ∧
    GroupSim (g1.deleteCache k).2 (g2.deleteCache k).2 := by
  have hk : g1.getSplitKey k = g2.getSplitKey k := getSplitKey_sim h.1 k
  rcases mapLookup_sim (g1.getSplitKey k) h.2 with ⟨h1, h2⟩ | ⟨c1, c2, h1, h2, hc⟩
  · rw [hk] at h2
    constructor
    · simp [CacheGroup.deleteCache, h1, h2]
    · simp only [CacheGroup.deleteCache, h1, h2]
      exact h
  · rw [hk] at h2
    constructor
    · simp [CacheGroup.deleteCache, h1, h2]
    · simp only [CacheGroup.deleteCache, h1, h2]
      refine ⟨h.1, ?_⟩
      rw [← hk]
      exact mapErase_sim _ h.2

theorem addCache_sim {g1 g2 : CacheGroup} (h : GroupSim g1 g2) {k : String}
    {e1 e2 i t : Int} :
    GroupSim (g1.addCache k e1 i t) (g2.addCache k e2 i t) := by
  have hk : g1.getSplitKey k = g2.getSplitKey k := getSplitKey_sim h.1 k
  rcases mapLookup_sim (g1.getSplitKey k) h.2 with ⟨h1, h2⟩ | ⟨c1, c2, h1, h2, hc⟩
  · rw [hk] at h2
    simp only [CacheGroup.addCache, h1, h2]
    refine ⟨h.1, ?_⟩
    rw [← hk]
    exact mapInsert_sim _ h.2 ⟨rfl, rfl⟩
  · rw [hk] at h2
    simp only [CacheGroup.addCache, h1, h2]
    exact h

theorem runOp_sim {g1 g2 : CacheGroup} (h : GroupSim g1 g2) (op1 op2 : Op)
    (hop : eraseShardTtl op1 = eraseShardTtl op2) :
    (runOp g1 op1).1 = (runOp g2 op2).1 ∧
    GroupSim (runOp g1 op1).2 (runOp g2 op2).2 := by
  cases op1 <;> cases op2 <;> simp only [eraseShardTtl] at hop <;>
    try exact Op.noConfusion hop
  case getOp.getOp k1 t1 k2 t2 =>
    injection hop with hk ht
    subst hk
    subst ht
    refine ⟨?_, h⟩
    simp only [runOp]
    rw [GetValue_sim h]
  case getStringOp.getStringOp k1 t1 k2 t2 =>
    injection hop with hk ht
    subst hk
    subst ht
    refine ⟨?_, h⟩
    simp only [runOp]
    rw [GetString_sim h]
  case setOp.setOp k1 v1 e1 t1 k2 v2 e2 t2 =>
    injection hop with hk hv he ht
    subst hk
    subst hv
    subst he
    subst ht
    exact ⟨rfl, SetValue_sim h⟩
  case deleteShardOp.deleteShardOp k1 k2 =>
    injection hop with hk
    subst hk
    have hd := deleteCache_sim h k1
    refine ⟨?_, hd.2⟩
    simp only [runOp]
    rw [hd.1]
  case addShardOp.addShardOp k1 e1 i1 t1 k2 e2 i2 t2 =>
    injection hop with hk hz hi ht
    subst hk
    subst hi
    subst ht
    exact ⟨rfl, addCache_sim h⟩

theorem runOps_sim : ∀ (ops1 ops2 : List Op) (g1 g2 : CacheGroup),
    GroupSim g1 g2 → ops1.map eraseShardTtl = ops2.map eraseShardTtl →
    runOps g1 ops1 = runOps g2 ops2 := by
  intro ops1
  induction ops1 with
  | nil =>
    intro ops2 g1 g2 h hmap
    cases ops2 with
    | nil => rfl
    | cons a l => simp at hmap
  | cons op1 rest ih =>
    intro ops2 g1 g2 h hmap
    cases ops2 with
    | nil => simp at hmap
    | cons op2 rest2 =>
      simp only [List.map_cons, List.cons.injEq] at hmap
      have hr := runOp_sim h op1 op2 hmap.1
      simp only [runOps]
      rw [hr.1, ih rest2 (runOp g1 op1).2 (runOp g2 op2).2 hr.2 hmap.2]

/-- Two groups constructed with arbitrary expirations are similar. -/
theorem NewCacheGroup_sim (e1 e2 t1 t2 : Int) :
    GroupSim (NewCacheGroup e1 t1) (NewCacheGroup e2 t2) :=
  ⟨rfl, List.Forall₂.nil⟩

/-- C9: neither the group-wide expiration passed to `NewCacheGroup` nor the
per-shard expiration passed to explicit shard creation is ever read: two
runs of call sequences that agree except for the expiration argument of
explicit shard creation, starting from groups built with arbitrary
expirations, produce identical results for every call. -/
theorem C9_expiration_never_read (ops1 ops2 : List Op) (e1 e2 t0 : Int)
    (hops : ops1.map eraseShardTtl = ops2.map eraseShardTtl) :
    runOps (NewCacheGroup e1 t0) ops1 = runOps (NewCacheGroup e2 t0) ops2 :=
  runOps_sim ops1 ops2 _ _ (NewCacheGroup_sim e1 e2 t0 t0) hops

/-- Witness for C9: the same three calls with different group and shard
expirations. -/
theorem C9_expiration_never_read_witness :
    ([Op.addShardOp "abcd" 5 7 0, Op.setOp "abcd" (Value.int 1) 0 1,
        Op.getOp "abcd" 2].map eraseShardTtl =
      [Op.addShardOp "abcd" 99 7 0, Op.setOp "abcd" (Value.int 1) 0 1,
        Op.getOp "abcd" 2].map eraseShardTtl) ∧
    runOps (NewCacheGroup 11 0)
        [Op.addShardOp "abcd" 5 7 0, Op.setOp "abcd" (Value.int 1) 0 1,
          Op.getOp "abcd" 2] =
      runOps (NewCacheGroup 22 0)
        [Op.addShardOp "abcd" 99 7 0, Op.setOp "abcd" (Value.int 1) 0 1,
          Op.getOp "abcd" 2] :=
  ⟨by decide,
    C9_expiration_never_read
      [Op.addShardOp "abcd" 5 7 0, Op.setOp "abcd" (Value.int 1) 0 1,
        Op.getOp "abcd" 2]
      [Op.addShardOp "abcd" 99 7 0, Op.setOp "abcd" (Value.int 1) 0 1,
        Op.getOp "abcd" 2]
      11 22 0 (by decide)⟩

end MemoryCache
